import Mathlib

/-!
Verification of the `lost_crumbs` maintenance scripts
(`scripts/inject_titles.py` and `scripts/gen_nav.py`).

Python strings are modelled as `List Char` (`PyStr`).  Each Python string
operation used by the scripts is given a faithful executable model:

* `splitOnNl`      models `s.split('\n')`
* `joinNl`         models `'\n'.join(lines)`
* `pySplitWs`      models `s.split()` (split on whitespace runs, no empties)
* `joinSpace`      models `' '.join(parts)`
* `leadsWith`      models `s.startswith(pat)`
* `hasSub`         models `pat in s` (substring containment)
* `dropQuoteStart` models `s.removeprefix('"')` (drop one leading quote)
* `dropQuoteEnd`   models `s.removesuffix('"')` (drop one trailing quote)
* `pyFindAux` / `pyFind` model `s.find(pat)` (first index, `-1` if absent)
* `pySliceTo`      models `s[:k]` for an `int` bound (negative counts from the end)
* `stem`           models `pathlib.PurePath.stem` on a file name
* `pyLower` / `pyTitle` model `s.lower()` / `s.title()` (ASCII letters)
* `sepToSpace`     models `s.replace("-", " ").replace("_", " ")`

On top of these, the script logic is embedded:

* `scanLoop` is the `for i, line in enumerate(lines)` loop of `file_update`
  (tracking the last extracted title and breaking at the first line with
  index ≥ 1 containing `---`).
* `file_update` is `inject_titles.file_update`; the result is
  `some (wrote, newContent)` on success (`wrote = true` iff the file is
  rewritten) and `none` when the Python code raises
  (`IndexError` on `lines[i + 2]`, or `NameError` on an unbound `title`).
* `sorted_files` is the shared Section Lister; the directory listing is a
  parameter (the file system is external state).  Python's `sorted` is
  modelled by insertion sort under the lexicographic order on `List Char`,
  which agrees with Python's string comparison of the names.
* `section_nav`, `gen_nav_lines`, `gen_nav_updated` embed `gen_nav.py`:
  the per-section navigation lines, the whole generated block
  (`nav_lines`), and the final marker splice
  `original[:original.find(NAV_KEY)] + '\n'.join(nav_lines)`.
-/

namespace LostCrumbs

abbrev PyStr := List Char

def strL (s : String) : PyStr := s.toList

/-- Python `str.isspace` on a single character (ASCII whitespace). -/
def pySpace (c : Char) : Bool :=
  c = ' ' || c = '\t' || c = '\n' || c = '\r' || c = '\x0b' || c = '\x0c'

/-- Python `s.startswith(pat)`. -/
def leadsWith : PyStr → PyStr → Bool
  | _, [] => true
  | [], _ :: _ => false
  | c :: s, p :: ps => c = p && leadsWith s ps

/-- Python `pat in s` (substring containment). -/
def hasSub : PyStr → PyStr → Bool
  | [], pat => leadsWith [] pat
  | c :: rest, pat => leadsWith (c :: rest) pat || hasSub rest pat

/-- Python `s.split('\n')`: always at least one piece, empty pieces kept. -/
def splitOnNl : PyStr → List PyStr
  | [] => [[]]
  | c :: rest =>
    if c = '\n' then [] :: splitOnNl rest
    else
      match splitOnNl rest with
      | [] => [[c]]
      | l :: ls => (c :: l) :: ls

/-- Python `'\n'.join(lines)`. -/
def joinNl : List PyStr → PyStr
  | [] => []
  | [l] => l
  | l :: ls => l ++ '\n' :: joinNl ls

/-- Python `' '.join(parts)`. -/
def joinSpace : List PyStr → PyStr
  | [] => []
  | [l] => l
  | l :: ls => l ++ ' ' :: joinSpace ls

/-- Worker for `pySplitWs`: `acc` holds the current token reversed. -/
def splitWsAux : PyStr → PyStr → List PyStr
  | [], acc => if acc = [] then [] else [acc.reverse]
  | c :: rest, acc =>
    if pySpace c then
      if acc = [] then splitWsAux rest []
      else acc.reverse :: splitWsAux rest []
    else splitWsAux rest (c :: acc)

/-- Python `s.split()` (no arguments): split on whitespace runs, dropping
empty tokens. -/
def pySplitWs (s : PyStr) : List PyStr := splitWsAux s []

/-- Python `s.removeprefix('"')`: drop one leading quote if present. -/
def dropQuoteStart : PyStr → PyStr
  | [] => []
  | c :: rest => if c = '"' then rest else c :: rest

/-- Python `s.removesuffix('"')`: drop one trailing quote if present. -/
def dropQuoteEnd (s : PyStr) : PyStr := (dropQuoteStart s.reverse).reverse

/-- `' '.join(line.split()[1:]).removeprefix('"').removesuffix('"')`:
the title-value extraction of `file_update` (line 14 of
`inject_titles.py`). -/
def extractTitle (line : PyStr) : PyStr :=
  dropQuoteEnd (dropQuoteStart (joinSpace ((pySplitWs line).drop 1)))

def titleKeyC : PyStr := strL "title: "

def dashesC : PyStr := strL "---"

/-- The title-tracking assignment of the scan loop: on a line containing
`"title: "` the remembered title is overwritten, otherwise kept. -/
def updTitle (t : Option PyStr) (line : PyStr) : Option PyStr :=
  if hasSub line titleKeyC then some (extractTitle line) else t

/-- The `for i, line in enumerate(lines)` loop of `file_update`:
`scanLoop rest i t` continues the loop at index `i` with remembered title
`t`.  Returns `some (i, t)` when `break` fires at index `i` (first line

with index ≥ 1 containing `---`), `none` when the loop runs out. -/
def scanLoop : List PyStr → Nat → Option PyStr → Option (Nat × Option PyStr)
  | [], _, _ => none
  | line :: rest, i, t =>
    if hasSub line dashesC && decide (1 ≤ i) then some (i, updTitle t line)
    else scanLoop rest (i + 1) (updTitle t line)

/-- `f"# {title}"`. -/
def headingOf (title : PyStr) : PyStr := '#' :: ' ' :: title

/-- `inject_titles.file_update`, acting on the file's text content.
`some (wrote, content)` is a successful run (`wrote = true` iff
`filename.write_text` was called, `content` is the file's content after
the run); `none` models the uncaught Python exception (`IndexError` on
`lines[i + 2]` or `NameError` on `title`), which leaves the file
unwritten. -/
def file_update (original : PyStr) : Option (Bool × PyStr) :=
  match scanLoop (splitOnNl original) 0 none with
  | none => none
  | some (i, tOpt) =>
    match (splitOnNl original)[i + 2]?, tOpt with
    | some l, some title =>
      if l = headingOf title then some (false, original)
      else if leadsWith l (strL "# ") then
        some (true, joinNl ((splitOnNl original).set (i + 2) (headingOf title)))
      else
        some (true, joinNl ((splitOnNl original).take (i + 1)
          ++ [[], headingOf title, []] ++ (splitOnNl original).drop (i + 1)))
    | _, _ => none

/-- `pathlib.PurePath.stem` applied to a file name: drop the part from the
last dot on, provided that dot is neither the first nor the last
character. -/
def lastIdxOf (c : Char) : PyStr → Option Nat
  | [] => none
  | x :: rest =>
    match lastIdxOf c rest with
    | some j => some (j + 1)
    | none => if x = c then some 0 else none

def stem (name : PyStr) : PyStr :=
  match lastIdxOf '.' name with
  | some i => if 0 < i ∧ i < name.length - 1 then name.take i else name
  | none => name

def indexC : PyStr := strL "index"

/-- The shared Section Lister
`sorted([x for x in Path(f"docs/{slug}").iterdir() if 'index' != x.stem])`.
`entries` is the directory listing (file names, in arbitrary `iterdir`
order); since every listed path shares the directory prefix
`docs/<slug>/`, Python's path sorting coincides with the lexicographic
order on the names, modelled by insertion sort under `≤` on `List Char`. -/
def sorted_files (entries : List PyStr) : List PyStr :=
  List.insertionSort (fun a b => a ≤ b)
    (entries.filter (fun x => decide (¬(indexC = stem x))))

def navKeyC : PyStr := strL "# NAV"

/-- Python `s.lower()` (ASCII). -/
def pyLower (s : PyStr) : PyStr := s.map Char.toLower

/-- `s.replace("-", " ").replace("_", " ")`. -/
def sepToSpace (s : PyStr) : PyStr :=
  (s.map (fun c => if c = '-' then ' ' else c)).map
    (fun c => if c = '_' then ' ' else c)

/-- Worker for `pyTitle`: the flag says whether the previous character was
a letter. -/
def pyTitleAux : PyStr → Bool → PyStr
  | [], _ => []
  | c :: rest, prevAlpha =>
    (if prevAlpha then c.toLower else c.toUpper) :: pyTitleAux rest c.isAlpha

/-- Python `s.title()` (ASCII letters): first letter of every letter run
uppercased, the rest lowercased. -/
def pyTitle (s : PyStr) : PyStr := pyTitleAux s false

/-- `f"    - '{title}': {section_slug}/{filename.stem}"` with
`title = filename.stem.replace("-", " ").replace("_", " ").title()`. -/
def leafLine (slug f : PyStr) : PyStr :=
  strL "    - '" ++ pyTitle (sepToSpace (stem f)) ++ strL "': "
    ++ slug ++ strL "/" ++ stem f

/-- `gen_nav.section_nav`, with the directory listing for the section as
a parameter (`sec` is the section name): starts from the section header
and the index entry, then appends one leaf per sorted file. -/
def section_nav (sec : PyStr) (entries : List PyStr) : List PyStr :=
  (sorted_files entries).foldl (fun lines f => lines ++ [leafLine (pyLower sec) f])
    [strL "  - " ++ pyTitle sec ++ strL ":",
     strL "    - " ++ pyLower sec ++ strL "/index.md"]

/-- The generated navigation block `nav_lines` of `gen_nav.py`: the marker
line and the root `nav:` key, extended by the per-section lines for the
literal section list `['blog', 'guides', 'resources', 'setups']`.  The
four directory listings are parameters. -/
def gen_nav_lines (b g r s : List PyStr) : List PyStr :=
  ([(strL "blog", b), (strL "guides", g), (strL "resources", r),
    (strL "setups", s)]).foldl
    (fun acc p => acc ++ section_nav p.1 p.2) [navKeyC, strL "nav:"]

/-- `s.find(pat)` before conversion to `int`: first index of `pat` in `s`,
`none` when absent. -/
def pyFindAux : PyStr → PyStr → Option Nat
  | [], pat => if leadsWith [] pat then some 0 else none
  | c :: rest, pat =>
    if leadsWith (c :: rest) pat then some 0
    else (pyFindAux rest pat).map (fun n => n + 1)

/-- Python `s.find(pat)`: first index, `-1` when absent. -/
def pyFind (s pat : PyStr) : Int :=
  match pyFindAux s pat with
  | some n => (n : Int)
  | none => -1

/-- Python `s[:k]` for an `int` bound: nonnegative bounds take a prefix,
negative bounds count from the end (clamped at 0). -/
def pySliceTo (s : PyStr) (k : Int) : PyStr :=
  if 0 ≤ k then s.take k.toNat else s.take (s.length - (-k).toNat)

/-- The final splice of `gen_nav.py`:
`original[:original.find(NAV_KEY)] + '\n'.join(nav_lines)`, written back
to the Navigation Document. -/
def gen_nav_updated (original : PyStr) (b g r s : List PyStr) : PyStr :=
  pySliceTo original (pyFind original navKeyC) ++ joinNl (gen_nav_lines b g r s)

/-! ### Helper lemmas on the string models -/

theorem splitOnNl_ne_nil (s : PyStr) : splitOnNl s ≠ [] := by
  induction s with
  | nil => simp [splitOnNl]
  | cons c rest ih =>
    rw [splitOnNl]
    split
    · simp
    · split
      · simp
      · simp

theorem no_nl_of_mem_splitOnNl (s : PyStr) (l : PyStr) (h : l ∈ splitOnNl s) :
    '\n' ∉ l := by
  induction s generalizing l with
  | nil =>
    simp [splitOnNl] at h
    simp [h]
  | cons c rest ih =>
    rw [splitOnNl] at h
    split at h
    · rcases List.mem_cons.mp h with h | h
      · simp [h]
      · exact ih l h
    · rename_i hc
      rcases hsplit : splitOnNl rest with _ | ⟨x, xs⟩
      · exact absurd hsplit (splitOnNl_ne_nil rest)
      · rw [hsplit] at h
        rcases List.mem_cons.mp h with h | h
        · subst h
          intro hmem
          rcases List.mem_cons.mp hmem with h | h
          · exact hc h.symm
          · exact ih x (by rw [hsplit]; exact List.mem_cons_self x xs) h
        · exact ih l (by rw [hsplit]; exact List.mem_cons_of_mem x h)

theorem splitOnNl_of_no_nl (s : PyStr) (h : '\n' ∉ s) : splitOnNl s = [s] := by
  induction s with
  | nil => rfl
  | cons c rest ih =>
    rw [splitOnNl]
    have hc : ¬(c = '\n') := fun hc => h (hc ▸ List.mem_cons_self c rest)
    rw [if_neg hc, ih (fun hm => h (List.mem_cons_of_mem c hm))]

theorem splitOnNl_append_nl (x t : PyStr) (h : '\n' ∉ x) :
    splitOnNl (x ++ '\n' :: t) = x :: splitOnNl t := by
  induction x with
  | nil => simp [splitOnNl]
  | cons c rest ih =>
    have hc : ¬(c = '\n') := fun hc => h (hc ▸ List.mem_cons_self c rest)
    have ih' := ih (fun hm => h (List.mem_cons_of_mem c hm))
    rw [List.cons_append, splitOnNl, if_neg hc, ih']

theorem joinNl_cons (x : PyStr) (L : List PyStr) (h : L ≠ []) :
    joinNl (x :: L) = x ++ '\n' :: joinNl L := by
  cases L with
  | nil => exact absurd rfl h
  | cons y ys => rfl

theorem splitOnNl_joinNl (L : List PyStr) (h : L ≠ [])
    (hnl : ∀ l ∈ L, '\n' ∉ l) : splitOnNl (joinNl L) = L := by
  induction L with
  | nil => exact absurd rfl h
  | cons x xs ih =>
    cases xs with
    | nil =>
      rw [joinNl, splitOnNl_of_no_nl x (hnl x (List.mem_cons_self x []))]
    | cons y ys =>
      rw [joinNl_cons x (y :: ys) (by simp),
        splitOnNl_append_nl x _ (hnl x (List.mem_cons_self x (y :: ys))),
        ih (by simp) (fun l hl => hnl l (List.mem_cons_of_mem x hl))]

theorem splitWsAux_no_space (s : PyStr) (acc : PyStr)
    (hacc : ∀ c ∈ acc, pySpace c = false) :
    ∀ tok ∈ splitWsAux s acc, ∀ c ∈ tok, pySpace c = false := by
  induction s generalizing acc with
  | nil =>
    intro tok htok c hc
    rw [splitWsAux] at htok
    split at htok
    · simp at htok
    · simp at htok
      subst htok
      exact hacc c (List.mem_reverse.mp hc)
  | cons a rest ih =>
    intro tok htok c hc
    rw [splitWsAux] at htok
    split at htok
    · split at htok
      · exact ih [] (by simp) tok htok c hc
      · rcases List.mem_cons.mp htok with h | h
        · subst h
          exact hacc c (List.mem_reverse.mp hc)
        · exact ih [] (by simp) tok h c hc
    · rename_i ha
      refine ih (a :: acc) ?_ tok htok c hc
      intro d hd
      rcases List.mem_cons.mp hd with h | h
      · subst h
        exact Bool.of_not_eq_true ha
      · exact hacc d h

theorem mem_joinSpace (L : List PyStr) (c : Char) (h : c ∈ joinSpace L) :
    c = ' ' ∨ ∃ l ∈ L, c ∈ l := by
  induction L with
  | nil => simp [joinSpace] at h
  | cons x xs ih =>
    cases xs with
    | nil =>
      rw [joinSpace] at h
      exact Or.inr ⟨x, List.mem_cons_self x [], h⟩
    | cons y ys =>
      have hj : joinSpace (x :: y :: ys) = x ++ ' ' :: joinSpace (y :: ys) := rfl
      rw [hj] at h
      rcases List.mem_append.mp h with h | h
      · exact Or.inr ⟨x, List.mem_cons_self x (y :: ys), h⟩
      · rcases List.mem_cons.mp h with h | h
        · exact Or.inl h
        · rcases ih h with h | ⟨l, hl, hc⟩
          · exact Or.inl h
          · exact Or.inr ⟨l, List.mem_cons_of_mem x hl, hc⟩

theorem mem_dropQuoteStart (s : PyStr) (c : Char) (h : c ∈ dropQuoteStart s) :
    c ∈ s := by
  cases s with
  | nil => exact h
  | cons a rest =>
    rw [dropQuoteStart] at h
    split at h
    · exact List.mem_cons_of_mem a h
    · exact h

theorem mem_dropQuoteEnd (s : PyStr) (c : Char) (h : c ∈ dropQuoteEnd s) :
    c ∈ s := by
  rw [dropQuoteEnd] at h
  exact List.mem_reverse.mp (mem_dropQuoteStart s.reverse c (List.mem_reverse.mp h))

theorem extractTitle_no_space (line : PyStr) (c : Char)
    (h : c ∈ extractTitle line) : c = ' ' ∨ pySpace c = false := by
  rw [extractTitle] at h
  have h1 := mem_dropQuoteStart _ c (mem_dropQuoteEnd _ c h)
  rcases mem_joinSpace _ c h1 with h2 | ⟨l, hl, hc⟩
  · exact Or.inl h2
  · exact Or.inr (splitWsAux_no_space line [] (by simp) l
      (List.mem_of_mem_drop hl) c hc)

theorem extractTitle_no_nl (line : PyStr) : '\n' ∉ extractTitle line := by
  intro h
  rcases extractTitle_no_space line '\n' h with h | h
  · exact absurd h (by decide)
  · exact absurd h (by decide)

theorem dropQuoteStart_eq (s : PyStr) :
    dropQuoteStart s = if s.head? = some '"' then s.drop 1 else s := by
  cases s with
  | nil => simp [dropQuoteStart]
  | cons c rest =>
    by_cases hc : c = '"'
    · simp [dropQuoteStart, hc]
    · simp [dropQuoteStart, hc]

theorem dropQuoteEnd_eq (s : PyStr) :
    dropQuoteEnd s = if s.getLast? = some '"' then s.dropLast else s := by
  rw [dropQuoteEnd, dropQuoteStart_eq, List.head?_reverse]
  split
  · rw [List.drop_one, List.tail_reverse, List.reverse_reverse]
  · rw [List.reverse_reverse]

theorem pyFindAux_eq_none (s pat : PyStr) (h : hasSub s pat = false) :
    pyFindAux s pat = none := by
  induction s with
  | nil =>
    rw [hasSub] at h
    rw [pyFindAux, if_neg (by simp [h])]
  | cons c rest ih =>
    rw [hasSub, Bool.or_eq_false_iff] at h
    rw [pyFindAux, if_neg (by simp [h.1]), ih h.2]
    rfl

/-! ### Lemmas about the scan loop of `file_update` -/

theorem scanLoop_le (L : List PyStr) (k : Nat) (t0 : Option PyStr)
    (i : Nat) (t : Option PyStr) (h : scanLoop L k t0 = some (i, t)) :
    k ≤ i := by
  induction L generalizing k t0 with
  | nil => simp [scanLoop] at h
  | cons line rest ih =>
    rw [scanLoop] at h
    split at h
    · simp only [Option.some.injEq, Prod.mk.injEq] at h
      omega
    · exact Nat.le_of_succ_le (ih (k + 1) _ h)

theorem scanLoop_one_le (L : List PyStr) (k : Nat) (t0 : Option PyStr)
    (i : Nat) (t : Option PyStr) (h : scanLoop L k t0 = some (i, t)) :
    1 ≤ i := by
  induction L generalizing k t0 with
  | nil => simp [scanLoop] at h
  | cons line rest ih =>
    rw [scanLoop] at h
    split at h
    · rename_i hc
      simp only [Bool.and_eq_true, decide_eq_true_eq] at hc
      simp only [Option.some.injEq, Prod.mk.injEq] at h
      omega
    · exact ih (k + 1) _ h

theorem scanLoop_lt_length (L : List PyStr) (k : Nat) (t0 : Option PyStr)
    (i : Nat) (t : Option PyStr) (h : scanLoop L k t0 = some (i, t)) :
    i - k < L.length := by
  induction L generalizing k t0 with
  | nil => simp [scanLoop] at h
  | cons line rest ih =>
    rw [scanLoop] at h
    split at h
    · simp only [Option.some.injEq, Prod.mk.injEq] at h
      simp [← h.1]
    · have h1 := ih (k + 1) _ h
      have h2 := scanLoop_le rest (k + 1) _ i t h
      simp only [List.length_cons]
      omega

theorem scanLoop_break_dash (L : List PyStr) (k : Nat) (t0 : Option PyStr)
    (i : Nat) (t : Option PyStr) (h : scanLoop L k t0 = some (i, t)) :
    ∃ l, L[i - k]? = some l ∧ hasSub l dashesC = true := by
  induction L generalizing k t0 with
  | nil => simp [scanLoop] at h
  | cons line rest ih =>
    rw [scanLoop] at h
    split at h
    · rename_i hc
      simp only [Bool.and_eq_true, decide_eq_true_eq] at hc
      simp only [Option.some.injEq, Prod.mk.injEq] at h
      refine ⟨line, ?_, hc.1⟩
      rw [← h.1]
      simp
    · have h2 := scanLoop_le rest (k + 1) _ i t h
      rcases ih (k + 1) _ h with ⟨l, hl, hd⟩
      refine ⟨l, ?_, hd⟩
      have hik : i - k = (i - (k + 1)) + 1 := by omega
      rw [hik]
      simpa using hl

theorem scanLoop_first (L : List PyStr) (k : Nat) (t0 : Option PyStr)
    (i : Nat) (t : Option PyStr) (h : scanLoop L k t0 = some (i, t)) :
    ∀ j l, j < i - k → L[j]? = some l → hasSub l dashesC = true → k + j = 0 := by
  induction L generalizing k t0 with
  | nil => simp [scanLoop] at h
  | cons line rest ih =>
    rw [scanLoop] at h
    split at h
    · simp only [Option.some.injEq, Prod.mk.injEq] at h
      intro j l hj
      omega
    · rename_i hc
      intro j l hj hl hd
      have h2 := scanLoop_le rest (k + 1) _ i t h
      cases j with
      | zero =>
        simp only [List.getElem?_cons_zero, Option.some.injEq] at hl
        subst hl
        rcases Bool.and_eq_false_iff.mp (Bool.of_not_eq_true hc) with hf | hf
        · rw [hd] at hf
          exact absurd hf (by simp)
        · simp only [decide_eq_false_iff_not] at hf
          omega
      | succ j' =>
        have := ih (k + 1) _ h j' l (by omega) (by simpa using hl) hd
        omega

theorem scanLoop_take (L : List PyStr) (k : Nat) (t0 : Option PyStr)
    (i : Nat) (t : Option PyStr) (h : scanLoop L k t0 = some (i, t)) :
    scanLoop (L.take (i - k + 1)) k t0 = some (i, t) := by
  induction L generalizing k t0 with
  | nil => simp [scanLoop] at h
  | cons line rest ih =>
    rw [scanLoop] at h
    split at h
    · rename_i hc
      simp only [Option.some.injEq, Prod.mk.injEq] at h
      rw [← h.1]
      simp only [Nat.sub_self, Nat.zero_add, List.take_succ_cons, List.take_zero]
      rw [scanLoop, if_pos hc, h.2]
    · rename_i hc
      have h2 := scanLoop_le rest (k + 1) _ i t h
      have hik : i - k + 1 = (i - (k + 1) + 1) + 1 := by omega
      rw [hik, List.take_succ_cons, scanLoop, if_neg hc]
      exact ih (k + 1) _ h

theorem scanLoop_append (L M : List PyStr) (k : Nat) (t0 : Option PyStr)
    (r : Nat × Option PyStr) (h : scanLoop L k t0 = some r) :
    scanLoop (L ++ M) k t0 = some r := by
  induction L generalizing k t0 with
  | nil => simp [scanLoop] at h
  | cons line rest ih =>
    rw [scanLoop] at h
    rw [List.cons_append, scanLoop]
    split at h
    · rename_i hc
      rw [if_pos hc]
      exact h
    · rename_i hc
      rw [if_neg hc]
      exact ih (k + 1) _ h

theorem scanLoop_title_foldl (L : List PyStr) (k : Nat) (t0 : Option PyStr)
    (i : Nat) (t : Option PyStr) (h : scanLoop L k t0 = some (i, t)) :
    t = (L.take (i - k + 1)).foldl updTitle t0 := by
  induction L generalizing k t0 with
  | nil => simp [scanLoop] at h
  | cons line rest ih =>
    rw [scanLoop] at h
    split at h
    · simp only [Option.some.injEq, Prod.mk.injEq] at h
      rw [← h.1]
      simp only [Nat.sub_self, Nat.zero_add, List.take_succ_cons, List.take_zero,
        List.foldl_cons, List.foldl_nil]
      exact h.2.symm
    · have h2 := scanLoop_le rest (k + 1) _ i t h
      have hik : i - k + 1 = (i - (k + 1) + 1) + 1 := by omega
      rw [hik, List.take_succ_cons, List.foldl_cons]
      exact ih (k + 1) _ h

theorem scanLoop_none_of (L : List PyStr) (k : Nat) (t0 : Option PyStr)
    (h : ∀ j l, L[j]? = some l → hasSub l dashesC = true → k + j = 0) :
    scanLoop L k t0 = none := by
  induction L generalizing k t0 with
  | nil => rfl
  | cons line rest ih =>
    rw [scanLoop]
    have hcond : ¬(hasSub line dashesC && decide (1 ≤ k)) = true := by
      intro hc
      simp only [Bool.and_eq_true, decide_eq_true_eq] at hc
      have := h 0 line (by simp) hc.1
      omega
    rw [if_neg hcond]
    refine ih (k + 1) _ ?_
    intro j l hl hd
    have := h (j + 1) l (by simpa using hl) hd
    omega

theorem scanLoop_exists (L : List PyStr) (k : Nat) (t0 : Option PyStr)
    (j : Nat) (l : PyStr) (hl : L[j]? = some l) (hd : hasSub l dashesC = true)
    (hk : 1 ≤ k + j) : ∃ i t, scanLoop L k t0 = some (i, t) ∧ i ≤ k + j := by
  induction L generalizing k t0 j with
  | nil => simp at hl
  | cons line rest ih =>
    rw [scanLoop]
    by_cases hc : (hasSub line dashesC && decide (1 ≤ k)) = true
    · exact ⟨k, updTitle t0 line, by rw [if_pos hc], Nat.le_add_right k j⟩
    · rw [if_neg hc]
      cases j with
      | zero =>
        simp only [List.getElem?_cons_zero, Option.some.injEq] at hl
        subst hl
        exfalso
        apply hc
        simp only [Bool.and_eq_true, decide_eq_true_eq]
        exact ⟨hd, by omega⟩
      | succ j' =>
        rcases ih (k + 1) (updTitle t0 line) j' (by simpa using hl)
          (by omega) with ⟨i, t, hs, hi⟩
        exact ⟨i, t, hs, by omega⟩

theorem scanLoop_title_mem (L : List PyStr) (k : Nat) (t0 : Option PyStr)
    (i : Nat) (t : PyStr) (h : scanLoop L k t0 = some (i, some t)) :
    (∃ l ∈ L, t = extractTitle l) ∨ t0 = some t := by
  induction L generalizing k t0 with
  | nil => simp [scanLoop] at h
  | cons line rest ih =>
    rw [scanLoop] at h
    have hupd : updTitle t0 line = some t → (∃ l ∈ line :: rest, t = extractTitle l) ∨ t0 = some t := by
      intro hu
      rw [updTitle] at hu
      split at hu
      · simp only [Option.some.injEq] at hu
        exact Or.inl ⟨line, List.mem_cons_self line rest, hu.symm⟩
      · exact Or.inr hu
    split at h
    · simp only [Option.some.injEq, Prod.mk.injEq] at h
      exact hupd h.2
    · rcases ih (k + 1) _ h with ⟨l, hl, ht⟩ | ht
      · exact Or.inl ⟨l, List.mem_cons_of_mem line hl, ht⟩
      · exact hupd ht

theorem foldl_updTitle_of_no_title (L : List PyStr) (t0 : Option PyStr)
    (h : ∀ l ∈ L, hasSub l titleKeyC = false) :
    L.foldl updTitle t0 = t0 := by
  induction L generalizing t0 with
  | nil => rfl
  | cons x xs ih =>
    rw [List.foldl_cons, updTitle,
      if_neg (by rw [h x (List.mem_cons_self x xs)]; simp)]
    exact ih t0 (fun l hl => h l (List.mem_cons_of_mem x hl))

theorem foldl_updTitle_getLast (L : List PyStr) (t0 : Option PyStr) :
    L.foldl updTitle t0 =
      (((L.filter (fun l => hasSub l titleKeyC)).getLast?).map extractTitle).or t0 := by
  induction L generalizing t0 with
  | nil => rfl
  | cons x xs ih =>
    rw [List.foldl_cons, ih, List.filter_cons]
    by_cases hx : hasSub x titleKeyC = true
    · rw [if_pos hx]
      rcases hfil : xs.filter (fun l => hasSub l titleKeyC) with _ | ⟨y, ys⟩
      · simp [updTitle, hx]
      · rcases hlast : (y :: ys).getLast? with _ | z
        · exact absurd hlast (by simp)
        · simp [List.getLast?_cons_cons, hlast]
    · rw [if_neg hx, updTitle, if_neg (by simp [hx])]

theorem scanLoop_stable (L M : List PyStr) (i : Nat) (t : Option PyStr)
    (h : scanLoop L 0 none = some (i, t)) (hM : M.take (i + 1) = L.take (i + 1)) :
    scanLoop M 0 none = some (i, t) := by
  have h1 := scanLoop_take L 0 none i t h
  simp only [Nat.sub_zero] at h1
  have h2 := scanLoop_append (L.take (i + 1)) (M.drop (i + 1)) 0 none (i, t) h1
  rw [← hM] at h2
  rw [List.take_append_drop] at h2
  exact h2

theorem foldl_append_singleton {α β : Type} (L : List α) (acc : List β) (f : α → β) :
    L.foldl (fun ls x => ls ++ [f x]) acc = acc ++ L.map f := by
  induction L generalizing acc with
  | nil => simp
  | cons x xs ih => simp [ih]

theorem section_nav_eq (sec : PyStr) (entries : List PyStr) :
    section_nav sec entries =
      (strL "  - " ++ pyTitle sec ++ strL ":")
        :: (strL "    - " ++ pyLower sec ++ strL "/index.md")
        :: (sorted_files entries).map (leafLine (pyLower sec)) := by
  rw [section_nav, foldl_append_singleton]
  rfl

/-! ### Claim theorems -/

/-- C6: for every section directory, Section Lister (`sorted_files`)
returns exactly the files of that directory whose stem is not `index`,
sorted ascending in lexicographic filename order, returns an empty
sequence when no qualifying files exist, and never returns a file whose
stem is `index`. -/
theorem sorted_files_spec (entries : List PyStr) :
    (sorted_files entries).Perm
        (entries.filter (fun x => decide (¬(indexC = stem x))))
      ∧ List.Sorted (fun a b : PyStr => a ≤ b) (sorted_files entries)
      ∧ (∀ x ∈ sorted_files entries, stem x ≠ indexC)
      ∧ (entries.filter (fun x => decide (¬(indexC = stem x))) = [] →
          sorted_files entries = [])
      ∧ sorted_files [strL "c.md", strL "a.md", strL "b.md"]
          = [strL "a.md", strL "b.md", strL "c.md"] := by
  refine ⟨List.perm_insertionSort _ _, List.sorted_insertionSort _ _, ?_, ?_, by decide⟩
  · intro x hx
    have hmem : x ∈ entries.filter (fun x => decide (¬(indexC = stem x))) :=
      (List.perm_insertionSort _ _).mem_iff.mp hx
    have := List.of_mem_filter hmem
    simp only [decide_eq_true_eq] at this
    exact fun he => this (he ▸ rfl)
  · intro hnil
    rw [sorted_files, hnil]
    rfl

/-- C7: the generated navigation block is the marker line and the root
`nav:` line, then the per-section entries in the literal order `blog`,
`guides`, `resources`, `setups`; within each section a title-cased header
line and an index-path entry come first, then one leaf per Section Lister
file in sorted order, pairing the display title (stem with `-` and `_`
replaced by spaces, title-cased; e.g. `my-first_post` → `My First Post`)
with the path `<section slug>/<stem>`. -/
theorem nav_block_structure (b g r s : List PyStr) :
    gen_nav_lines b g r s =
      [strL "# NAV", strL "nav:"]
        ++ ((strL "  - Blog:") :: (strL "    - blog/index.md")
            :: (sorted_files b).map (fun f =>
                strL "    - '" ++ pyTitle (sepToSpace (stem f)) ++ strL "': "
                  ++ strL "blog" ++ strL "/" ++ stem f))
        ++ ((strL "  - Guides:") :: (strL "    - guides/index.md")
            :: (sorted_files g).map (fun f =>
                strL "    - '" ++ pyTitle (sepToSpace (stem f)) ++ strL "': "
                  ++ strL "guides" ++ strL "/" ++ stem f))
        ++ ((strL "  - Resources:") :: (strL "    - resources/index.md")
            :: (sorted_files r).map (fun f =>
                strL "    - '" ++ pyTitle (sepToSpace (stem f)) ++ strL "': "
                  ++ strL "resources" ++ strL "/" ++ stem f))
        ++ ((strL "  - Setups:") :: (strL "    - setups/index.md")
            :: (sorted_files s).map (fun f =>
                strL "    - '" ++ pyTitle (sepToSpace (stem f)) ++ strL "': "
                  ++ strL "setups" ++ strL "/" ++ stem f))
      ∧ pyTitle (sepToSpace (strL "my-first_post")) = strL "My First Post" := by
  constructor
  · rw [gen_nav_lines]
    simp only [List.foldl_cons, List.foldl_nil]
    rw [section_nav_eq, section_nav_eq, section_nav_eq, section_nav_eq]
    have elow1 : pyLower (strL "blog") = strL "blog" := by decide
    have elow2 : pyLower (strL "guides") = strL "guides" := by decide
    have elow3 : pyLower (strL "resources") = strL "resources" := by decide
    have elow4 : pyLower (strL "setups") = strL "setups" := by decide
    rw [elow1, elow2, elow3, elow4]
    have hleaf : ∀ slug : PyStr, leafLine slug = fun f =>
        strL "    - '" ++ pyTitle (sepToSpace (stem f)) ++ strL "': "
          ++ slug ++ strL "/" ++ stem f := fun slug => funext (fun f => rfl)
    rw [hleaf, hleaf, hleaf, hleaf]
    have hh1 : strL "  - " ++ pyTitle (strL "blog") ++ strL ":" = strL "  - Blog:" := by
      decide
    have hh2 : strL "  - " ++ pyTitle (strL "guides") ++ strL ":" = strL "  - Guides:" := by
      decide
    have hh3 : strL "  - " ++ pyTitle (strL "resources") ++ strL ":"
        = strL "  - Resources:" := by decide
    have hh4 : strL "  - " ++ pyTitle (strL "setups") ++ strL ":" = strL "  - Setups:" := by
      decide
    have hi1 : strL "    - " ++ strL "blog" ++ strL "/index.md"
        = strL "    - blog/index.md" := by decide
    have hi2 : strL "    - " ++ strL "guides" ++ strL "/index.md"
        = strL "    - guides/index.md" := by decide
    have hi3 : strL "    - " ++ strL "resources" ++ strL "/index.md"
        = strL "    - resources/index.md" := by decide
    have hi4 : strL "    - " ++ strL "setups" ++ strL "/index.md"
        = strL "    - setups/index.md" := by decide
    rw [hh1, hh2, hh3, hh4, hi1, hi2, hi3, hi4]
    have hnav : navKeyC = strL "# NAV" := rfl
    rw [hnav]
  · decide

/-- C1 counterexample: on a Navigation Document without the `# NAV`
marker, the rewritten document is NOT just the generated navigation
block — the original content minus its last character is retained
before the block (`find` returns `-1` and `original[:-1]` keeps all but
the last character). -/
theorem nav_marker_missing_counterexample :
    hasSub (strL "hello") navKeyC = false
      ∧ gen_nav_updated (strL "hello") [] [] [] []
          = strL "hell" ++ joinNl (gen_nav_lines [] [] [] [])
      ∧ gen_nav_updated (strL "hello") [] [] [] []
          ≠ joinNl (gen_nav_lines [] [] [] []) :=
  ⟨by decide, by decide, by decide⟩

/-- C1 amended: when the marker text `# NAV` does not occur in the
Navigation Document, `find` returns `-1` and the slice `original[:-1]`
keeps the whole original document except its final character, so the
rewritten document is the original content minus its last character
followed by the generated navigation block (for an empty document,
nothing precedes the block). -/
theorem nav_marker_missing_amended (original : PyStr) (b g r s : List PyStr)
    (h : hasSub original navKeyC = false) :
    gen_nav_updated original b g r s
      = original.dropLast ++ joinNl (gen_nav_lines b g r s) := by
  have hfind : pyFind original navKeyC = -1 := by
    rw [pyFind, pyFindAux_eq_none original navKeyC h]
  rw [gen_nav_updated, hfind, pySliceTo, if_neg (by norm_num), List.dropLast_eq_take]
  norm_num

theorem nav_marker_missing_amended_witness :
    hasSub (strL "hi") navKeyC = false
      ∧ gen_nav_updated (strL "hi") [] [] [] []
          = (strL "hi").dropLast ++ joinNl (gen_nav_lines [] [] [] []) :=
  ⟨by decide, nav_marker_missing_amended (strL "hi") [] [] [] [] (by decide)⟩

/-- C10: if a Content File has a title field and a terminator but no line
exists at `terminator_index + 2`, `file_update` fails (out-of-range
`lines[i + 2]`) instead of inserting the heading, and the file is not
written. -/
theorem missing_body_line_fails (original : PyStr) (i : Nat) (title : PyStr)
    (h1 : scanLoop (splitOnNl original) 0 none = some (i, some title))
    (h2 : (splitOnNl original)[i + 2]? = none) :
    file_update original = none := by
  simp only [file_update, h1, h2]

theorem missing_body_line_fails_witness :
    scanLoop (splitOnNl (strL "x\ntitle: t\n---")) 0 none
        = some (2, some (strL "t"))
      ∧ (splitOnNl (strL "x\ntitle: t\n---"))[4]? = none
      ∧ file_update (strL "x\ntitle: t\n---") = none :=
  ⟨by decide, by decide,
    missing_body_line_fails (strL "x\ntitle: t\n---") 2 (strL "t")
      (by decide) (by decide)⟩

/-- C3: a Content File with no terminator line at all (no line of index
≥ 1 contains `---`), or with no line containing `title: ` up to and
including the terminator line, makes `file_update` abort with a hard
failure (`IndexError` or `NameError`) and no write: the file's content is
unchanged. -/
theorem missing_title_or_terminator_fails (original : PyStr)
    (h : (∀ l ∈ (splitOnNl original).drop 1, hasSub l dashesC = false)
        ∨ (∃ i t, scanLoop (splitOnNl original) 0 none = some (i, t)
            ∧ ∀ l ∈ (splitOnNl original).take (i + 1), hasSub l titleKeyC = false)) :
    file_update original = none := by
  rcases h with h | ⟨i, t, hs, ht⟩
  · have hnone : scanLoop (splitOnNl original) 0 none = none := by
      apply scanLoop_none_of
      intro j l hl hd
      cases j with
      | zero => rfl
      | succ j' =>
        exfalso
        have hmem : l ∈ (splitOnNl original).drop 1 := by
          apply List.getElem?_mem (n := j')
          rw [List.getElem?_drop]
          rw [show 1 + j' = j' + 1 by omega]
          exact hl
        rw [h l hmem] at hd
        exact absurd hd (by simp)
    rw [file_update, hnone]
  · have htf := scanLoop_title_foldl _ 0 none i t hs
    simp only [Nat.sub_zero] at htf
    rw [foldl_updTitle_of_no_title _ _ ht] at htf
    subst htf
    rcases hget : (splitOnNl original)[i + 2]? with _ | l
    · simp only [file_update, hs, hget]
    · simp only [file_update, hs, hget]

theorem missing_title_or_terminator_fails_witness :
    (∀ l ∈ (splitOnNl (strL "---\nfoo\n---\nbody")).take 3,
        hasSub l titleKeyC = false)
      ∧ file_update (strL "---\nfoo\n---\nbody") = none :=
  ⟨by decide,
    missing_title_or_terminator_fails (strL "---\nfoo\n---\nbody")
      (Or.inr ⟨2, none, by decide, by decide⟩)⟩

/-- C9: the scan of `file_update` treats as front-matter terminator the
first line of index ≥ 1 that contains `---` anywhere as a substring
(first conjunct: any break index is such a line and no earlier line of
index ≥ 1 contains `---`; second conjunct: whenever such a line exists
the scan does break, at or before it); in particular a title line whose
value contains `---` ends the scan at that very line (third conjunct). -/
theorem terminator_first_substring (lines : List PyStr) :
    (∀ i t, scanLoop lines 0 none = some (i, t) →
        1 ≤ i ∧ (∃ l, lines[i]? = some l ∧ hasSub l dashesC = true)
          ∧ ∀ j l, 1 ≤ j → j < i → lines[j]? = some l → hasSub l dashesC = false)
      ∧ (∀ i l, 1 ≤ i → lines[i]? = some l → hasSub l dashesC = true →
          ∃ iN t, scanLoop lines 0 none = some (iN, t) ∧ iN ≤ i)
      ∧ scanLoop [strL "---", strL "title: front---matter", strL "body"] 0 none
          = some (1, some (strL "front---matter")) := by
  refine ⟨?_, ?_, by decide⟩
  · intro i t h
    refine ⟨scanLoop_one_le _ 0 none i t h, ?_, ?_⟩
    · have hb := scanLoop_break_dash _ 0 none i t h
      simpa using hb
    · intro j l hj1 hji hl
      by_contra hd
      have hz := scanLoop_first _ 0 none i t h j l (by omega) hl
        (by simpa using Bool.of_not_eq_false hd)
      omega
  · intro i l h1 hl hd
    rcases scanLoop_exists lines 0 none i l hl hd (by omega) with ⟨iN, t, hsc, hile⟩
    exact ⟨iN, t, hsc, by omega⟩

/-- C8: when several lines containing `title: ` occur at or before the
front-matter terminator, the scan of `file_update` remembers the last
such line's extracted value: the resulting expected title is the
extraction of the final matching line among the scanned prefix. -/
theorem last_title_wins (lines : List PyStr) (i : Nat) (t : Option PyStr)
    (h : scanLoop lines 0 none = some (i, t)) :
    t = (((lines.take (i + 1)).filter (fun l => hasSub l titleKeyC)).getLast?).map
        extractTitle := by
  have h1 := scanLoop_title_foldl lines 0 none i t h
  simp only [Nat.sub_zero] at h1
  rw [h1, foldl_updTitle_getLast]
  rw [Option.or_none]

theorem last_title_wins_witness :
    scanLoop [strL "---", strL "title: A", strL "title: B", strL "---"] 0 none
        = some (3, some (strL "B"))
      ∧ (some (strL "B") : Option PyStr)
          = ((([strL "---", strL "title: A", strL "title: B", strL "---"].take
              (3 + 1)).filter (fun l => hasSub l titleKeyC)).getLast?).map
              extractTitle :=
  ⟨by decide,
    last_title_wins [strL "---", strL "title: A", strL "title: B", strL "---"]
      3 (some (strL "B")) (by decide)⟩

/-- C4 counterexample: title-value extraction does NOT return exactly the
substring of the title line after the first whitespace-delimited token:
on the line `title: a  b` that substring is `a  b` (double space), but
the extraction collapses the run of spaces and returns `a b`. -/
theorem title_extraction_counterexample :
    extractTitle (strL "title: a  b") = strL "a b"
      ∧ extractTitle (strL "title: a  b") ≠ strL "a  b" :=
  ⟨by decide, by decide⟩

/-- C4 amended: title-value extraction splits the title line on
whitespace and returns the tokens after the first one joined by single
spaces (so titles containing `:` are preserved in full, but runs of
internal whitespace collapse to single spaces and leading/trailing
whitespace is dropped); quote-stripping then removes at most one quote
character from the very start and at most one from the very end of that
value, each independently of the other, and never touches internal
quotes. -/
theorem title_extraction_amended (line : PyStr) :
    (extractTitle line =
      (let v := joinSpace ((pySplitWs line).drop 1)
       let v1 := if v.head? = some '"' then v.drop 1 else v
       if v1.getLast? = some '"' then v1.dropLast else v1))
      ∧ (∀ tok ∈ pySplitWs line, ∀ c ∈ tok, pySpace c = false)
      ∧ extractTitle (strL "title: With: Colon") = strL "With: Colon" := by
  refine ⟨?_, ?_, by decide⟩
  · rw [extractTitle, dropQuoteStart_eq, dropQuoteEnd_eq]
  · exact fun tok htok c hc => splitWsAux_no_space line [] (by simp) tok htok c hc

/-- C5: when the line two positions after the terminator exists and
neither equals `# <expected title>` nor starts with `# `, `file_update`
rewrites the file, inserting exactly three lines immediately after the
terminator line — a blank line, `# <expected title>`, and another blank
line — leaving every line up to the terminator in place and every line
originally after the terminator preserved verbatim, shifted down by
exactly 3 positions. -/
theorem heading_insertion (original : PyStr) (i : Nat) (title l : PyStr)
    (h1 : scanLoop (splitOnNl original) 0 none = some (i, some title))
    (h2 : (splitOnNl original)[i + 2]? = some l)
    (h3 : ¬(l = headingOf title))
    (h4 : leadsWith l (strL "# ") = false) :
    ∃ newL, file_update original = some (true, joinNl newL)
      ∧ newL.length = (splitOnNl original).length + 3
      ∧ (∀ j, j ≤ i → newL[j]? = (splitOnNl original)[j]?)
      ∧ newL[i + 1]? = some []
      ∧ newL[i + 2]? = some (headingOf title)
      ∧ newL[i + 3]? = some []
      ∧ (∀ j, i + 1 ≤ j → newL[j + 3]? = (splitOnNl original)[j]?) := by
  have hlen : i + 2 < (splitOnNl original).length := by
    by_contra hc
    rw [List.getElem?_eq_none (by omega)] at h2
    exact absurd h2 (by simp)
  have htl : ((splitOnNl original).take (i + 1)).length = i + 1 := by
    rw [List.length_take]
    omega
  refine ⟨(splitOnNl original).take (i + 1) ++ [[], headingOf title, []]
      ++ (splitOnNl original).drop (i + 1), ?_, ?_, ?_, ?_, ?_, ?_, ?_⟩
  · simp only [file_update, h1, h2]
    rw [if_neg h3, if_neg (by simp [h4])]
  · simp only [List.length_append, htl, List.length_drop, List.length_cons,
      List.length_nil]
    omega
  · intro j hj
    rw [List.getElem?_append_left (by simp only [List.length_append, htl, List.length_cons, List.length_nil]; omega),
      List.getElem?_append_left (by omega ), List.getElem?_take_of_lt (by omega)]
  · rw [List.getElem?_append_left (by simp only [List.length_append, htl, List.length_cons, List.length_nil]; omega),
      List.getElem?_append_right (by omega ), htl]
    simp
  · rw [List.getElem?_append_left (by simp only [List.length_append, htl, List.length_cons, List.length_nil]; omega),
      List.getElem?_append_right (by omega ), htl]
    have : i + 2 - (i + 1) = 1 := by omega
    rw [this]
    simp
  · rw [List.getElem?_append_left (by simp only [List.length_append, htl, List.length_cons, List.length_nil]; omega),
      List.getElem?_append_right (by omega ), htl]
    have : i + 3 - (i + 1) = 2 := by omega
    rw [this]
    simp
  · intro j hj
    rw [List.getElem?_append_right (by simp only [List.length_append, htl, List.length_cons, List.length_nil]; omega)]
    simp only [List.length_append, htl, List.length_cons, List.length_nil]
    rw [List.getElem?_drop]
    have : i + 1 + (j + 3 - (i + 1 + (0 + 1 + 1 + 1))) = j := by omega
    rw [show (0 + 1 + 1 + 1 : Nat) = 3 by omega] at this ⊢
    rw [this]

theorem heading_insertion_witness :
    scanLoop (splitOnNl (strL "---\ntitle: Hi\n---\n\nbody")) 0 none
        = some (2, some (strL "Hi"))
      ∧ (splitOnNl (strL "---\ntitle: Hi\n---\n\nbody"))[2 + 2]? = some (strL "body")
      ∧ ∃ newL, file_update (strL "---\ntitle: Hi\n---\n\nbody")
            = some (true, joinNl newL)
          ∧ newL.length = (splitOnNl (strL "---\ntitle: Hi\n---\n\nbody")).length + 3
          ∧ (∀ j, j ≤ 2 →
              newL[j]? = (splitOnNl (strL "---\ntitle: Hi\n---\n\nbody"))[j]?)
          ∧ newL[2 + 1]? = some []
          ∧ newL[2 + 2]? = some (headingOf (strL "Hi"))
          ∧ newL[2 + 3]? = some []
          ∧ (∀ j, 2 + 1 ≤ j →
              newL[j + 3]? = (splitOnNl (strL "---\ntitle: Hi\n---\n\nbody"))[j]?) :=
  ⟨by decide, by decide,
    heading_insertion (strL "---\ntitle: Hi\n---\n\nbody") 2 (strL "Hi")
      (strL "body") (by decide) (by decide) (by decide) (by decide)⟩

theorem heading_no_nl (L : List PyStr) (k : Nat) (i : Nat) (title : PyStr)
    (h : scanLoop L k none = some (i, some title)) : '\n' ∉ headingOf title := by
  intro hmem
  rw [headingOf] at hmem
  rcases scanLoop_title_mem L k none i title h with ⟨l, _, ht⟩ | ht
  · subst ht
    rcases List.mem_cons.mp hmem with hc | hmem'
    · exact absurd hc (by decide)
    rcases List.mem_cons.mp hmem' with hc | hmem''
    · exact absurd hc (by decide)
    · exact extractTitle_no_nl l hmem''
  · exact absurd ht (by simp)

/-- C2: Title Injector is idempotent — whenever a run of `file_update`
succeeds (possibly rewriting the file), a second run on the resulting
content takes the "already correct" branch: it succeeds with zero writes
and leaves the content byte-for-byte unchanged. -/
theorem title_injector_idempotent (s : PyStr) (b : Bool) (t : PyStr)
    (h : file_update s = some (b, t)) : file_update t = some (false, t) := by
  rcases hscan : scanLoop (splitOnNl s) 0 none with _ | ⟨i, tOpt⟩
  · simp only [file_update, hscan] at h
    exact absurd h (by simp)
  · rcases tOpt with _ | title
    · rcases hget : (splitOnNl s)[i + 2]? with _ | l <;>
        simp only [file_update, hscan, hget] at h <;>
        exact absurd h (by simp)
    · rcases hget : (splitOnNl s)[i + 2]? with _ | l
      · simp only [file_update, hscan, hget] at h
        exact absurd h (by simp)
      · simp only [file_update, hscan, hget] at h
        have hlenL : i + 2 < (splitOnNl s).length := by
          by_contra hc
          rw [List.getElem?_eq_none (by omega)] at hget
          exact absurd hget (by simp)
        by_cases he : l = headingOf title
        · rw [if_pos he] at h
          simp only [Option.some.injEq, Prod.mk.injEq] at h
          rw [← h.2]
          simp only [file_update, hscan, hget]
          rw [if_pos he, h.1]
        · by_cases hsw : leadsWith l (strL "# ") = true
          · rw [if_neg he, if_pos hsw] at h
            simp only [Option.some.injEq, Prod.mk.injEq] at h
            have ht' : t = joinNl ((splitOnNl s).set (i + 2) (headingOf title)) :=
              h.2.symm
            have hne : (splitOnNl s).set (i + 2) (headingOf title) ≠ [] := by
              intro h0
              apply splitOnNl_ne_nil s
              have hlen0 := congrArg List.length h0
              rw [List.length_set] at hlen0
              exact List.length_eq_zero.mp hlen0
            have hnl : ∀ l' ∈ (splitOnNl s).set (i + 2) (headingOf title),
                '\n' ∉ l' := by
              intro l' hl'
              rcases List.mem_or_eq_of_mem_set hl' with hm | hm
              · exact no_nl_of_mem_splitOnNl s l' hm
              · subst hm
                exact heading_no_nl (splitOnNl s) 0 i title hscan
            have hsplit : splitOnNl t = (splitOnNl s).set (i + 2) (headingOf title) := by
              rw [ht']
              exact splitOnNl_joinNl _ hne hnl
            have htake : ((splitOnNl s).set (i + 2) (headingOf title)).take (i + 1)
                = (splitOnNl s).take (i + 1) := by
              rw [List.set_take]
              apply List.set_eq_of_length_le
              rw [List.length_take]
              omega
            have hscan2 : scanLoop (splitOnNl t) 0 none = some (i, some title) := by
              rw [hsplit]
              exact scanLoop_stable _ _ i (some title) hscan htake
            have hget2 : (splitOnNl t)[i + 2]? = some (headingOf title) := by
              rw [hsplit]
              exact List.getElem?_set_self hlenL
            simp only [file_update, hscan2, hget2]
            simp
          · rw [if_neg he, if_neg hsw] at h
            simp only [Option.some.injEq, Prod.mk.injEq] at h
            have ht' : t = joinNl ((splitOnNl s).take (i + 1)
                ++ [[], headingOf title, []] ++ (splitOnNl s).drop (i + 1)) :=
              h.2.symm
            have htl : ((splitOnNl s).take (i + 1)).length = i + 1 := by
              rw [List.length_take]
              omega
            have hne : (splitOnNl s).take (i + 1)
                ++ [[], headingOf title, []] ++ (splitOnNl s).drop (i + 1) ≠ [] := by
              simp
            have hnl : ∀ l' ∈ (splitOnNl s).take (i + 1)
                ++ [[], headingOf title, []] ++ (splitOnNl s).drop (i + 1),
                '\n' ∉ l' := by
              intro l' hl'
              rcases List.mem_append.mp hl' with hl2 | hl2
              · rcases List.mem_append.mp hl2 with hl3 | hl3
                · exact no_nl_of_mem_splitOnNl s l' (List.mem_of_mem_take hl3)
                · rcases List.mem_cons.mp hl3 with hm | hl4
                  · subst hm
                    simp
                  rcases List.mem_cons.mp hl4 with hm | hl5
                  · subst hm
                    exact heading_no_nl (splitOnNl s) 0 i title hscan
                  · rcases List.mem_cons.mp hl5 with hm | hl6
                    · subst hm
                      simp
                    · simp at hl6
              · exact no_nl_of_mem_splitOnNl s l' (List.mem_of_mem_drop hl2)
            have hsplit : splitOnNl t = (splitOnNl s).take (i + 1)
                ++ [[], headingOf title, []] ++ (splitOnNl s).drop (i + 1) := by
              rw [ht']
              exact splitOnNl_joinNl _ hne hnl
            have htake : ((splitOnNl s).take (i + 1)
                ++ [[], headingOf title, []] ++ (splitOnNl s).drop (i + 1)).take (i + 1)
                = (splitOnNl s).take (i + 1) := by
              rw [List.take_append_of_le_length
                  (by simp only [List.length_append, htl, List.length_cons,
                    List.length_nil]; omega),
                List.take_append_of_le_length (by omega),
                List.take_take]
              simp
            have hscan2 : scanLoop (splitOnNl t) 0 none = some (i, some title) := by
              rw [hsplit]
              exact scanLoop_stable _ _ i (some title) hscan htake
            have hget2 : (splitOnNl t)[i + 2]? = some (headingOf title) := by
              rw [hsplit,
                List.getElem?_append_left
                  (by simp only [List.length_append, htl, List.length_cons,
                    List.length_nil]; omega),
                List.getElem?_append_right (by omega), htl]
              have h12 : i + 2 - (i + 1) = 1 := by omega
              rw [h12]
              simp
            simp only [file_update, hscan2, hget2]
            simp

theorem title_injector_idempotent_witness :
    file_update (strL "---\ntitle: Hi\n---\n\nbody")
        = some (true, strL "---\ntitle: Hi\n---\n\n# Hi\n\n\nbody")
      ∧ file_update (strL "---\ntitle: Hi\n---\n\n# Hi\n\n\nbody")
          = some (false, strL "---\ntitle: Hi\n---\n\n# Hi\n\n\nbody") :=
  ⟨by decide,
    title_injector_idempotent (strL "---\ntitle: Hi\n---\n\nbody") true
      (strL "---\ntitle: Hi\n---\n\n# Hi\n\n\nbody") (by decide)⟩

end LostCrumbs
